import Mathlib

/-!
Shallow embedding of the plasma-mvp child-chain CLI (`plasma/cli/cli.py`) and
RPC server (`plasma/child_chain/server.py`).

The `Transaction`, `Block`, `FixedMerkle` and `confirm_tx` helpers live outside
the given sources; where a claim depends on them they are modelled from the
specification (each such definition carries a `Modelled from the spec:` note).
Hashing is modelled as an ideal (collision-free) hash: hash values form a free
inductive type, so `node l r = node l' r'` exactly when the operands agree.
-/

/-- an ideal hash value: `HashVal.leaf n` stands for a 32-byte constant and
`HashVal.node l r` for the digest `sha3(l ++ r)` of the two child digests;
free constructors model a collision-free hash. -/
inductive HashVal : Type
  | leaf : Nat → HashVal
  | node : HashVal → HashVal → HashVal
deriving DecidableEq, Repr

/-- Modelled from the spec: the fixed padding leaf used to fill a partially
full block up to the tree capacity (spec 4.2: a well-defined padding leaf
value, commonly an all-zero hash). -/
def padLeaf : HashVal := HashVal.leaf 0

/-- Modelled from the spec: pad the ordered leaf sequence on the right with
`padLeaf` up to the fixed capacity `2 ^ depth` (spec 4.2 `build`). -/
def padTo (depth : Nat) (xs : List HashVal) : List HashVal :=
  xs ++ List.replicate (2 ^ depth - xs.length) padLeaf

/-- Modelled from the spec: one bottom-up folding step, combining the level
pairwise left-to-right, left operand first (spec 4.2 `build`). -/
def combineLevel : List HashVal → List HashVal
  | a :: b :: rest => HashVal.node a b :: combineLevel rest
  | _ => []

/-- Modelled from the spec: fold `depth` levels to reach the root. -/
def rootFrom : Nat → List HashVal → HashVal
  | 0, level => level.headD padLeaf
  | d + 1, level => rootFrom d (combineLevel level)

/-- the Merkle root of a leaf sequence in a tree of the given depth. -/
def merkleRootOf (depth : Nat) (leaves : List HashVal) : HashVal :=
  rootFrom depth (padTo depth leaves)

/-- index of the sibling of position `i` inside one tree level. -/
def siblingIndex (i : Nat) : Nat := if i % 2 == 0 then i + 1 else i - 1

/-- Modelled from the spec: the sibling-hash path from the leaf at index `i`
up to the root, ordered leaf-to-root (spec 4.2 membership proof). -/
def proofFromIndex : Nat → Nat → List HashVal → List HashVal
  | 0, _, _ => []
  | d + 1, i, level =>
      level.getD (siblingIndex i) padLeaf ::
        proofFromIndex d (i / 2) (combineLevel level)

/-- error cases of the modelled Merkle-tree operations. -/
inductive MerkleErr : Type
  | leafNotFound
deriving DecidableEq, Repr

deriving instance DecidableEq for Except

/-- Modelled from the spec: `create_membership_proof(leaf_hash)` locates the
first leaf equal to `leaf_hash` (searching the padded leaf sequence) and
returns its sibling path; fails with `LeafNotFound` if absent (spec 4.2). -/
def create_membership_proof (depth : Nat) (leaves : List HashVal)
    (leaf : HashVal) : Except MerkleErr (List HashVal) :=
  let padded := padTo depth leaves
  if leaf ∈ padded then
    Except.ok (proofFromIndex depth (padded.indexOf leaf) padded)
  else
    Except.error MerkleErr.leafNotFound

/-- recompute the root from a leaf, its index and a sibling path: at each
level the running hash is the left or right operand according to the
least-significant bit of the running index (spec 4.2 `verify`). -/
def computeRoot : HashVal → Nat → List HashVal → HashVal
  | h, _, [] => h
  | h, i, p :: ps =>
      computeRoot (if i % 2 == 0 then HashVal.node h p else HashVal.node p h)
        (i / 2) ps

/-- Modelled from the spec: `verify(leaf, index, proof, expected_root)`
recomputes the root and compares it to `expected_root` (spec 4.2). -/
def verify (leaf : HashVal) (index : Nat) (proof : List HashVal)
    (expected_root : HashVal) : Bool :=
  decide (computeRoot leaf index proof = expected_root)

theorem combineLevel_length :
    ∀ l : List HashVal, (combineLevel l).length = l.length / 2
  | [] => rfl
  | [_] => by simp [combineLevel]
  | _ :: _ :: rest => by
      simp only [combineLevel, List.length_cons, combineLevel_length rest]
      omega

theorem combineLevel_getD :
    ∀ (l : List HashVal) (k : Nat), 2 * k + 1 < l.length →
      (combineLevel l).getD k padLeaf =
        HashVal.node (l.getD (2 * k) padLeaf) (l.getD (2 * k + 1) padLeaf)
  | [], k, h => by simp at h
  | [_], k, h => by simp at h
  | a :: b :: rest, 0, _ => rfl
  | a :: b :: rest, k + 1, h => by
      have hrest : 2 * k + 1 < rest.length := by
        simp only [List.length_cons] at h; omega
      have ih := combineLevel_getD rest k hrest
      have e1 : 2 * (k + 1) = 2 * k + 1 + 1 := by omega
      have e2 : 2 * (k + 1) + 1 = 2 * k + 1 + 1 + 1 := by omega
      simp only [combineLevel, List.getD_cons_succ, e1, e2]
      exact ih

theorem computeRoot_proofFromIndex :
    ∀ (d : Nat) (level : List HashVal) (i : Nat),
      level.length = 2 ^ d → i < level.length →
      computeRoot (level.getD i padLeaf) i (proofFromIndex d i level) =
        rootFrom d level
  | 0, level, i, hlen, hi => by
      match level, hlen with
      | [x], _ =>
          have : i = 0 := by simp at hi; omega
          subst this
          rfl
  | d + 1, level, i, hlen, hi => by
      have hpow : (2 : Nat) ^ (d + 1) = 2 ^ d * 2 := by rw [pow_succ]
      have hcl : (combineLevel level).length = 2 ^ d := by
        rw [combineLevel_length, hlen, hpow]; omega
      have hstep :
          (if i % 2 == 0 then
              HashVal.node (level.getD i padLeaf)
                (level.getD (siblingIndex i) padLeaf)
            else
              HashVal.node (level.getD (siblingIndex i) padLeaf)
                (level.getD i padLeaf)) =
            (combineLevel level).getD (i / 2) padLeaf := by
        rcases Nat.even_or_odd i with he | ho
        · have hm : i % 2 = 0 := Nat.even_iff.mp he
          have hi1 : 2 * (i / 2) + 1 < level.length := by
            rw [hlen, hpow]; rw [hlen, hpow] at hi; omega
          have hdiv : 2 * (i / 2) = i := by omega
          rw [combineLevel_getD level (i / 2) hi1, hdiv]
          simp [siblingIndex, hm]
        · have hm : i % 2 = 1 := Nat.odd_iff.mp ho
          have hdiv : 2 * (i / 2) = i - 1 := by omega
          have hi1 : 2 * (i / 2) + 1 < level.length := by omega
          rw [combineLevel_getD level (i / 2) hi1, hdiv]
          have hsucc : i - 1 + 1 = i := by omega
          simp [siblingIndex, hm, hsucc]
      have hi2 : i / 2 < (combineLevel level).length := by
        rw [hcl]; rw [hlen, hpow] at hi; omega
      calc computeRoot (level.getD i padLeaf) i
              (proofFromIndex (d + 1) i level)
          = computeRoot
              ((combineLevel level).getD (i / 2) padLeaf) (i / 2)
              (proofFromIndex d (i / 2) (combineLevel level)) := by
            simp only [proofFromIndex, computeRoot, hstep]
        _ = rootFrom d (combineLevel level) :=
            computeRoot_proofFromIndex d (combineLevel level) (i / 2) hcl hi2
        _ = rootFrom (d + 1) level := rfl

/-- leaves used by the Merkle round-trip counterexample: `leaf 1` occurs at
index 0 and again at index 2. -/
def cexLeaves : List HashVal :=
  [HashVal.leaf 1, HashVal.leaf 2, HashVal.leaf 1, HashVal.leaf 3]

/-- the membership proof `create_membership_proof` returns for `leaf 1` in
`cexLeaves` (the proof for the first occurrence, index 0). -/
def cexProof : List HashVal :=
  [HashVal.leaf 2, HashVal.node (HashVal.leaf 1) (HashVal.leaf 3)]

/-- C5 (counterexample to the claim as stated): in the depth-2 tree over
`cexLeaves`, the leaf `leaf 1` is actually present at index 2, yet the proof
returned by `create_membership_proof` (which is built for the first occurrence
of the leaf, index 0) does not verify at index 2 against the tree's root. -/
theorem merkle_roundtrip_counterexample :
    HashVal.leaf 1 ∈ padTo 2 cexLeaves ∧
    (padTo 2 cexLeaves).getD 2 padLeaf = HashVal.leaf 1 ∧
    create_membership_proof 2 cexLeaves (HashVal.leaf 1) = Except.ok cexProof ∧
    verify (HashVal.leaf 1) 2 cexProof (merkleRootOf 2 cexLeaves) = false := by
  decide

theorem create_membership_proof_verify (depth : Nat) (leaves : List HashVal)
    (L : HashVal) (hcap : leaves.length ≤ 2 ^ depth) (hmem : L ∈ leaves) :
    create_membership_proof depth leaves L =
      Except.ok (proofFromIndex depth ((padTo depth leaves).indexOf L)
        (padTo depth leaves)) ∧
    verify L ((padTo depth leaves).indexOf L)
      (proofFromIndex depth ((padTo depth leaves).indexOf L)
        (padTo depth leaves))
      (merkleRootOf depth leaves) = true := by
  have hpadmem : L ∈ padTo depth leaves := List.mem_append_left _ hmem
  have hplen : (padTo depth leaves).length = 2 ^ depth := by
    simp only [padTo, List.length_append, List.length_replicate]
    omega
  have hidx : (padTo depth leaves).indexOf L < (padTo depth leaves).length :=
    List.indexOf_lt_length.mpr hpadmem
  constructor
  · simp [create_membership_proof, hpadmem]
  · have hget :
        (padTo depth leaves).getD ((padTo depth leaves).indexOf L) padLeaf
          = L := by
      rw [List.getD_eq_getElem _ _ hidx]
      exact List.getElem_indexOf hidx
    have hroot := computeRoot_proofFromIndex depth (padTo depth leaves)
      ((padTo depth leaves).indexOf L) hplen hidx
    rw [hget] at hroot
    simp [verify, merkleRootOf, hroot]

/-- C5 (amended): for every tree (of any depth, with leaves not exceeding the
capacity) and every leaf `L` present in it, the proof returned by
`create_membership_proof` verifies against the tree's root at the index the
proof was created for, namely the first index at which `L` occurs. -/
theorem merkle_roundtrip_first_index (depth : Nat) (leaves : List HashVal)
    (L : HashVal) (hcap : leaves.length ≤ 2 ^ depth) (hmem : L ∈ leaves) :
    ∃ p, create_membership_proof depth leaves L = Except.ok p ∧
      verify L ((padTo depth leaves).indexOf L) p (merkleRootOf depth leaves)
        = true :=
  ⟨proofFromIndex depth ((padTo depth leaves).indexOf L) (padTo depth leaves),
    (create_membership_proof_verify depth leaves L hcap hmem).1,
    (create_membership_proof_verify depth leaves L hcap hmem).2⟩

/-- C5 witness: the amended round-trip theorem instantiated on the
single-leaf depth-1 tree. -/
theorem merkle_roundtrip_first_index_witness :
    ∃ p, create_membership_proof 1 [HashVal.leaf 7] (HashVal.leaf 7)
        = Except.ok p ∧
      verify (HashVal.leaf 7)
        ((padTo 1 [HashVal.leaf 7]).indexOf (HashVal.leaf 7)) p
        (merkleRootOf 1 [HashVal.leaf 7]) = true :=
  merkle_roundtrip_first_index 1 [HashVal.leaf 7] (HashVal.leaf 7)
    (by decide) (by decide)

/-- a component of a signature byte-string: `spendSig k` models a 65-byte
spending signature made with key `k`; `confirmSig h r k` models the
confirmation signature made with key `k` over the pair `(h, r)` of a
transaction's `merkle_hash` and a block's `merkle_root` (spec 3). -/
inductive SigPiece : Type
  | spendSig : Nat → SigPiece
  | confirmSig : HashVal → HashVal → Nat → SigPiece
deriving DecidableEq, Repr

/-- Modelled from the spec: the part of a `Transaction` that `withdraw`
reads — its derived `merkle_hash` (an opaque 32-byte leaf value here) and
its two spending-signature slots (spec 3, `Transaction`). -/
structure ChainTx : Type where
  merkleHash : HashVal
  sig1 : List SigPiece
  sig2 : List SigPiece
deriving DecidableEq, Repr

/-- Modelled from the spec: the part of a `Block` that `withdraw` reads —
its ordered `transaction_set` (spec 3, `Block`). -/
structure Block : Type where
  transaction_set : List ChainTx
deriving DecidableEq, Repr

/-- Modelled from the spec: `confirm_tx(tx, root, key)` produces the
confirmation signature by `key` over `(tx.merkle_hash, root)` (spec 3,
confirmation signature), as a signature byte-string. -/
def confirm_tx (tx : ChainTx) (root : HashVal) (key : Nat) : List SigPiece :=
  [SigPiece.confirmSig tx.merkleHash root key]

/-- the confirmation signature for one input slot: computed with the
supplied key, or the empty byte-string when no key was supplied
(cli.py lines 166-170). -/
def confSigFor (tx : ChainTx) (root : HashVal) : Option Nat → List SigPiece
  | some k => confirm_tx tx root k
  | none => []

/-- Python list indexing: non-negative indices count from the front,
negative indices from the back, anything else raises `IndexError`
(modelled as `none`). -/
def pyGet {α : Type} (xs : List α) (i : Int) : Option α :=
  if 0 ≤ i then xs.get? i.toNat
  else if 0 ≤ (xs.length : Int) + i then xs.get? ((xs.length : Int) + i).toNat
  else none

/-- error cases of the modelled `withdraw` assembly. -/
inductive WithdrawErr : Type
  | indexOutOfRange
  | treeSizeExceeded
  | leafNotFound
deriving DecidableEq, Repr

/-- the exit bundle handed to the root-chain collaborator
(`client.withdraw`, cli.py line 173): position, signed transaction,
membership proof and the concatenated signature byte-string. -/
structure ExitBundle : Type where
  blknum : Nat
  txindex : Int
  oindex : Nat
  tx : ChainTx
  proof : List HashVal
  sigs : List SigPiece
deriving DecidableEq, Repr

/-- the exit-bundle assembly of `withdraw` (cli.py lines 153-173): look the
transaction up in the block's transaction set, merklize the transaction set
(modelled from the spec with the tree depth as a parameter and a fixed
capacity of `2 ^ depth` leaves), create the membership proof for the
transaction's `merkle_hash`, compute the confirmation signatures for the
supplied keys over `(tx.merkle_hash, block.merkle_root)`, and assemble the
bundle; the returned bundle is what line 173 hands to the external
root-chain collaborator — this function does not submit it. -/
def withdraw (depth : Nat) (block : Block) (blknum : Nat) (txindex : Int)
    (oindex : Nat) (key1 key2 : Option Nat) : Except WithdrawErr ExitBundle :=
  match pyGet block.transaction_set txindex with
  | none => Except.error WithdrawErr.indexOutOfRange
  | some tx =>
    let leaves := block.transaction_set.map ChainTx.merkleHash
    if 2 ^ depth < leaves.length then
      Except.error WithdrawErr.treeSizeExceeded
    else
      match create_membership_proof depth leaves tx.merkleHash with
      | Except.error _ => Except.error WithdrawErr.leafNotFound
      | Except.ok proof =>
        let root := merkleRootOf depth leaves
        let confirmSig1 := confSigFor tx root key1
        let confirmSig2 := confSigFor tx root key2
        Except.ok ⟨blknum, txindex, oindex, tx, proof,
          tx.sig1 ++ tx.sig2 ++ confirmSig1 ++ confirmSig2⟩

theorem pyGet_mem {α : Type} {xs : List α} {i : Int} {a : α}
    (h : pyGet xs i = some a) : a ∈ xs := by
  have hget : ∀ (l : List α) (n : Nat), l.get? n = some a → a ∈ l := by
    intro l
    induction l with
    | nil => intro n hn; simp [List.get?] at hn
    | cons x xs ih =>
        intro n hn
        cases n with
        | zero =>
            simp [List.get?] at hn
            simp [hn]
        | succ m => exact List.mem_cons_of_mem _ (ih m hn)
  unfold pyGet at h
  split at h
  · exact hget _ _ h
  · split at h
    · exact hget _ _ h
    · exact absurd h (by simp)

theorem withdraw_ok_spec (depth : Nat) (block : Block) (blknum : Nat)
    (txindex : Int) (oindex : Nat) (key1 key2 : Option Nat)
    (bundle : ExitBundle)
    (h : withdraw depth block blknum txindex oindex key1 key2
      = Except.ok bundle) :
    ∃ tx proof,
      pyGet block.transaction_set txindex = some tx ∧
      (block.transaction_set.map ChainTx.merkleHash).length ≤ 2 ^ depth ∧
      create_membership_proof depth
        (block.transaction_set.map ChainTx.merkleHash) tx.merkleHash
        = Except.ok proof ∧
      bundle = ⟨blknum, txindex, oindex, tx, proof,
        tx.sig1 ++ tx.sig2 ++
          confSigFor tx (merkleRootOf depth
            (block.transaction_set.map ChainTx.merkleHash)) key1 ++
          confSigFor tx (merkleRootOf depth
            (block.transaction_set.map ChainTx.merkleHash)) key2⟩ := by
  unfold withdraw at h
  cases hpg : pyGet block.transaction_set txindex with
  | none => rw [hpg] at h; cases h
  | some tx =>
      rw [hpg] at h
      simp only [] at h
      by_cases hlen :
          2 ^ depth < (block.transaction_set.map ChainTx.merkleHash).length
      · rw [if_pos hlen] at h; cases h
      · rw [if_neg hlen] at h
        cases hcp : create_membership_proof depth
            (block.transaction_set.map ChainTx.merkleHash) tx.merkleHash with
        | error e => rw [hcp] at h; cases h
        | ok proof =>
            rw [hcp] at h
            simp only [] at h
            injection h with h2
            exact ⟨tx, proof, rfl, by omega, hcp, h2.symm⟩

/-- a concrete transaction used by the withdraw witnesses. -/
def wTx : ChainTx := ⟨HashVal.leaf 5, [SigPiece.spendSig 11], []⟩

/-- a concrete one-transaction block used by the withdraw witnesses. -/
def wBlock : Block := ⟨[wTx]⟩

/-- the root of the depth-1 tree over `wBlock`'s transaction set. -/
def wRoot : HashVal := HashVal.node (HashVal.leaf 5) (HashVal.leaf 0)

/-- the exit bundle `withdraw 1 wBlock 7 0 9 (some 3) none` assembles. -/
def wBundle : ExitBundle :=
  ⟨7, 0, 9, wTx, [HashVal.leaf 0],
    [SigPiece.spendSig 11, SigPiece.confirmSig (HashVal.leaf 5) wRoot 3]⟩

/-- C1: in exit-bundle assembly, for each of the two input slots, a supplied
signer key yields a confirmation signature computed with that key over the
pair `(tx.merkle_hash, block.merkle_root)`, and a slot without a key
contributes the empty byte-string (cli.py lines 166-170). -/
theorem withdraw_confirmation_signatures (depth : Nat) (block : Block)
    (blknum : Nat) (txindex : Int) (oindex : Nat) (key1 key2 : Option Nat)
    (bundle : ExitBundle)
    (h : withdraw depth block blknum txindex oindex key1 key2
      = Except.ok bundle) :
    ∃ tx, pyGet block.transaction_set txindex = some tx ∧
      bundle.sigs = tx.sig1 ++ tx.sig2 ++
        (match key1 with
          | some k => [SigPiece.confirmSig tx.merkleHash (merkleRootOf depth
              (block.transaction_set.map ChainTx.merkleHash)) k]
          | none => []) ++
        (match key2 with
          | some k => [SigPiece.confirmSig tx.merkleHash (merkleRootOf depth
              (block.transaction_set.map ChainTx.merkleHash)) k]
          | none => []) := by
  obtain ⟨tx, proof, hpg, _, _, hb⟩ :=
    withdraw_ok_spec depth block blknum txindex oindex key1 key2 bundle h
  refine ⟨tx, hpg, ?_⟩
  subst hb
  cases key1 <;> cases key2 <;> simp [confSigFor, confirm_tx]

/-- C1 witness: the confirmation-signature theorem instantiated on a
one-transaction block with a key for slot 1 and none for slot 2. -/
theorem withdraw_confirmation_signatures_witness :
    ∃ tx, pyGet wBlock.transaction_set 0 = some tx ∧
      wBundle.sigs = tx.sig1 ++ tx.sig2 ++
        [SigPiece.confirmSig tx.merkleHash (merkleRootOf 1
          (wBlock.transaction_set.map ChainTx.merkleHash)) 3] ++
        ([] : List SigPiece) :=
  withdraw_confirmation_signatures 1 wBlock 7 0 9 (some 3) none wBundle
    (by decide)

/-- C2: a successful exit-bundle assembly returns exactly the bundle
`(blknum, txindex, oindex, tx, proof, sigs)` with
`sigs = sig1 ++ sig2 ++ confirmSig1 ++ confirmSig2` in that fixed order
(cli.py lines 171-173); the bundle is returned to be handed to the external
root-chain collaborator, this function does not submit it. -/
theorem withdraw_bundle_composition (depth : Nat) (block : Block)
    (blknum : Nat) (txindex : Int) (oindex : Nat) (key1 key2 : Option Nat)
    (bundle : ExitBundle)
    (h : withdraw depth block blknum txindex oindex key1 key2
      = Except.ok bundle) :
    ∃ tx proof,
      pyGet block.transaction_set txindex = some tx ∧
      create_membership_proof depth
        (block.transaction_set.map ChainTx.merkleHash) tx.merkleHash
        = Except.ok proof ∧
      bundle = ⟨blknum, txindex, oindex, tx, proof,
        tx.sig1 ++ tx.sig2 ++
          confSigFor tx (merkleRootOf depth
            (block.transaction_set.map ChainTx.merkleHash)) key1 ++
          confSigFor tx (merkleRootOf depth
            (block.transaction_set.map ChainTx.merkleHash)) key2⟩ := by
  obtain ⟨tx, proof, hpg, _, hcp, hb⟩ :=
    withdraw_ok_spec depth block blknum txindex oindex key1 key2 bundle h
  exact ⟨tx, proof, hpg, hcp, hb⟩

/-- C2 witness: the bundle-composition theorem instantiated on a
one-transaction block. -/
theorem withdraw_bundle_composition_witness :
    ∃ tx proof,
      pyGet wBlock.transaction_set 0 = some tx ∧
      create_membership_proof 1
        (wBlock.transaction_set.map ChainTx.merkleHash) tx.merkleHash
        = Except.ok proof ∧
      wBundle = ⟨7, 0, 9, tx, proof,
        tx.sig1 ++ tx.sig2 ++
          confSigFor tx (merkleRootOf 1
            (wBlock.transaction_set.map ChainTx.merkleHash)) (some 3) ++
          confSigFor tx (merkleRootOf 1
            (wBlock.transaction_set.map ChainTx.merkleHash)) none⟩ :=
  withdraw_bundle_composition 1 wBlock 7 0 9 (some 3) none wBundle (by decide)

/-- C3: a `txindex` that does not index an element of the block's
transaction set (under Python indexing, which also admits negative indices
counting from the back) makes exit-bundle assembly fail with
`IndexOutOfRange`, and on that failure no bundle is produced
(cli.py line 161). -/
theorem withdraw_index_out_of_range (depth : Nat) (block : Block)
    (blknum : Nat) (txindex : Int) (oindex : Nat) (key1 key2 : Option Nat)
    (h : pyGet block.transaction_set txindex = none) :
    withdraw depth block blknum txindex oindex key1 key2
      = Except.error WithdrawErr.indexOutOfRange ∧
    ∀ b, withdraw depth block blknum txindex oindex key1 key2
      ≠ Except.ok b := by
  have he : withdraw depth block blknum txindex oindex key1 key2
      = Except.error WithdrawErr.indexOutOfRange := by
    unfold withdraw
    rw [h]
  exact ⟨he, fun b hb => by rw [he] at hb; cases hb⟩

/-- C3 witness: the out-of-range theorem instantiated on an empty block at
index 2. -/
theorem withdraw_index_out_of_range_witness :
    withdraw 1 (Block.mk []) 7 2 9 (some 3) none
      = Except.error WithdrawErr.indexOutOfRange ∧
    ∀ b, withdraw 1 (Block.mk []) 7 2 9 (some 3) none ≠ Except.ok b :=
  withdraw_index_out_of_range 1 (Block.mk []) 7 2 9 (some 3) none (by decide)

/-- C4: in a successful exit-bundle assembly the membership proof is created
for the located transaction's `merkle_hash` from the (re-)merklized
transaction set, the confirmation signatures attest to that same tree's
root, and the proof verifies against that root at the index it was created
for (cli.py lines 161-163). -/
theorem withdraw_proof_matches_root (depth : Nat) (block : Block)
    (blknum : Nat) (txindex : Int) (oindex : Nat) (key1 key2 : Option Nat)
    (bundle : ExitBundle)
    (h : withdraw depth block blknum txindex oindex key1 key2
      = Except.ok bundle) :
    ∃ tx,
      pyGet block.transaction_set txindex = some tx ∧
      bundle.tx = tx ∧
      create_membership_proof depth
        (block.transaction_set.map ChainTx.merkleHash) tx.merkleHash
        = Except.ok bundle.proof ∧
      bundle.sigs = tx.sig1 ++ tx.sig2 ++
        confSigFor tx (merkleRootOf depth
          (block.transaction_set.map ChainTx.merkleHash)) key1 ++
        confSigFor tx (merkleRootOf depth
          (block.transaction_set.map ChainTx.merkleHash)) key2 ∧
      verify tx.merkleHash
        ((padTo depth (block.transaction_set.map ChainTx.merkleHash)).indexOf
          tx.merkleHash)
        bundle.proof
        (merkleRootOf depth (block.transaction_set.map ChainTx.merkleHash))
        = true := by
  obtain ⟨tx, proof, hpg, hlen, hcp, hb⟩ :=
    withdraw_ok_spec depth block blknum txindex oindex key1 key2 bundle h
  have hmem : tx.merkleHash ∈ block.transaction_set.map ChainTx.merkleHash :=
    List.mem_map_of_mem _ (pyGet_mem hpg)
  have haux := create_membership_proof_verify depth
    (block.transaction_set.map ChainTx.merkleHash) tx.merkleHash hlen hmem
  have hpeq : proof = proofFromIndex depth
      ((padTo depth (block.transaction_set.map ChainTx.merkleHash)).indexOf
        tx.merkleHash)
      (padTo depth (block.transaction_set.map ChainTx.merkleHash)) := by
    rw [haux.1] at hcp
    injection hcp with h2
    exact h2.symm
  subst hb
  refine ⟨tx, hpg, rfl, ?_, rfl, ?_⟩
  · rw [hcp]
  · rw [hpeq]
    exact haux.2

/-- C4 witness: the proof-root consistency theorem instantiated on a
one-transaction block. -/
theorem withdraw_proof_matches_root_witness :
    ∃ tx,
      pyGet wBlock.transaction_set 0 = some tx ∧
      wBundle.tx = tx ∧
      create_membership_proof 1
        (wBlock.transaction_set.map ChainTx.merkleHash) tx.merkleHash
        = Except.ok wBundle.proof ∧
      wBundle.sigs = tx.sig1 ++ tx.sig2 ++
        confSigFor tx (merkleRootOf 1
          (wBlock.transaction_set.map ChainTx.merkleHash)) (some 3) ++
        confSigFor tx (merkleRootOf 1
          (wBlock.transaction_set.map ChainTx.merkleHash)) none ∧
      verify tx.merkleHash
        ((padTo 1 (wBlock.transaction_set.map ChainTx.merkleHash)).indexOf
          tx.merkleHash)
        wBundle.proof
        (merkleRootOf 1 (wBlock.transaction_set.map ChainTx.merkleHash))
        = true :=
  withdraw_proof_matches_root 1 wBlock 7 0 9 (some 3) none wBundle (by decide)

/-- the child-chain service the RPC server forwards to; `V` is the type of
JSON-RPC parameter/result values, and the zero-argument procedures are
callables `Unit → V` (server.py lines 19-26 call methods of the same names
on the `ChildChain` object). -/
structure ChildChain (V : Type) : Type where
  submit_block : V → V
  apply_transaction : V → V
  get_transaction : V → V → V
  get_current_block : Unit → V
  get_current_block_num : Unit → V
  get_block : V → V
  get_balances : V → V
  get_open_orders : Unit → V

/-- the dispatcher table the request handler `application` fills in
(server.py lines 16-28): each registered name maps to a handler that
applies the `ChildChain` method of the same name to the call's parameter
list (a handler given the wrong number of parameters is a dispatch
error, modelled as `none`). -/
def application (V : Type) (cc : ChildChain V) :
    List (String × (List V → Option V)) :=
  [("submit_block", fun args =>
      match args with
      | [block] => some (cc.submit_block block)
      | _ => none),
   ("apply_transaction", fun args =>
      match args with
      | [transaction] => some (cc.apply_transaction transaction)
      | _ => none),
   ("get_transaction", fun args =>
      match args with
      | [blknum, txindex] => some (cc.get_transaction blknum txindex)
      | _ => none),
   ("get_current_block", fun args =>
      match args with
      | [] => some (cc.get_current_block ())
      | _ => none),
   ("get_current_block_num", fun args =>
      match args with
      | [] => some (cc.get_current_block_num ())
      | _ => none),
   ("get_block", fun args =>
      match args with
      | [blknum] => some (cc.get_block blknum)
      | _ => none),
   ("get_balances", fun args =>
      match args with
      | [address] => some (cc.get_balances address)
      | _ => none),
   ("get_open_orders", fun args =>
      match args with
      | [] => some (cc.get_open_orders ())
      | _ => none)]

/-- the names registered in the dispatcher, in registration order. -/
def registeredMethods (V : Type) (cc : ChildChain V) : List String :=
  (application V cc).map Prod.fst

/-- the JSON-RPC dispatch of `JSONRPCResponseManager.handle`
(server.py lines 27-28): look the method name up in the dispatcher and
apply its handler to the parameters; an unknown method is a dispatch
error, modelled as `none`. -/
def dispatchCall (V : Type) (cc : ChildChain V) (method : String)
    (args : List V) : Option V :=
  match (application V cc).lookup method with
  | some handler => handler args
  | none => none

/-- C6: the RPC application registers exactly the eight remote procedures,
and each one forwards its parameters unchanged to the `ChildChain` method
of the same name and returns that method's result
(server.py lines 16-29). -/
theorem application_registers_eight_and_forwards (V : Type)
    (cc : ChildChain V) (block transaction blknum txindex address : V) :
    registeredMethods V cc =
      ["submit_block", "apply_transaction", "get_transaction",
       "get_current_block", "get_current_block_num", "get_block",
       "get_balances", "get_open_orders"] ∧
    dispatchCall V cc "submit_block" [block]
      = some (cc.submit_block block) ∧
    dispatchCall V cc "apply_transaction" [transaction]
      = some (cc.apply_transaction transaction) ∧
    dispatchCall V cc "get_transaction" [blknum, txindex]
      = some (cc.get_transaction blknum txindex) ∧
    dispatchCall V cc "get_current_block" []
      = some (cc.get_current_block ()) ∧
    dispatchCall V cc "get_current_block_num" []
      = some (cc.get_current_block_num ()) ∧
    dispatchCall V cc "get_block" [blknum] = some (cc.get_block blknum) ∧
    dispatchCall V cc "get_balances" [address]
      = some (cc.get_balances address) ∧
    dispatchCall V cc "get_open_orders" []
      = some (cc.get_open_orders ()) :=
  ⟨rfl, rfl, rfl, rfl, rfl, rfl, rfl, rfl, rfl⟩

/-- the 20-zero-byte null address (cli.py line 13), with addresses as byte
lists. -/
def NULL_ADDRESS : List Nat := List.replicate 20 0

/-- the "0x0" shorthand handling of cli.py lines 66-71 followed by address
normalization: the literal string "0x0" is replaced by the `NULL_ADDRESS`
bytes (which `utils.normalize_address`, an external collaborator passed in
as the `normalize_address` parameter, maps to themselves); any other
string is decoded by `normalize_address`. -/
def resolveAddr (normalize_address : String → List Nat) (s : String) :
    List Nat :=
  if s = "0x0" then NULL_ADDRESS else normalize_address s

/-- Modelled from the spec: the plain two-output `Transaction` record as
constructed by `sendtx`, fields in the constructor's order
(spec 3, `Transaction`); signature slots are filled at signing. -/
structure SimpleTx : Type where
  blknum1 : Nat
  txindex1 : Nat
  oindex1 : Nat
  blknum2 : Nat
  txindex2 : Nat
  oindex2 : Nat
  cur12 : List Nat
  newowner1 : List Nat
  amount1 : Nat
  newowner2 : List Nat
  amount2 : Nat
  fee : Nat
  sig1 : List SigPiece
  sig2 : List SigPiece
deriving DecidableEq, Repr

/-- the transaction construction and signing of `sendtx`
(cli.py lines 58-87): resolve the "0x0" shorthand for the currency and the
two new owners, build the transaction, and sign each slot whose key is
supplied (a missing or falsy key leaves the slot empty). -/
def sendtx_tx (normalize_address : String → List Nat)
    (blknum1 txindex1 oindex1 blknum2 txindex2 oindex2 : Nat)
    (cur12 newowner1 newowner2 : String)
    (amount1 amount2 fee : Nat) (key1 key2 : Option Nat) : SimpleTx :=
  ⟨blknum1, txindex1, oindex1, blknum2, txindex2, oindex2,
    resolveAddr normalize_address cur12,
    resolveAddr normalize_address newowner1, amount1,
    resolveAddr normalize_address newowner2, amount2, fee,
    (match key1 with | some k => [SigPiece.spendSig k] | none => []),
    (match key2 with | some k => [SigPiece.spendSig k] | none => [])⟩

/-- C7: in `sendtx`, the shorthand string "0x0" given for the currency or
for either new owner denotes the 20-zero-byte null address: the
constructed transaction receives the zero address in those fields
(cli.py lines 13 and 66-79); the zero currency address denotes the native
asset (spec 3). -/
theorem sendtx_null_address_shorthand
    (normalize_address : String → List Nat)
    (blknum1 txindex1 oindex1 blknum2 txindex2 oindex2 : Nat)
    (cur12 newowner1 newowner2 : String)
    (amount1 amount2 fee : Nat) (key1 key2 : Option Nat) :
    NULL_ADDRESS = List.replicate 20 0 ∧
    (cur12 = "0x0" →
      (sendtx_tx normalize_address blknum1 txindex1 oindex1 blknum2 txindex2
        oindex2 cur12 newowner1 newowner2 amount1 amount2 fee key1
        key2).cur12 = NULL_ADDRESS) ∧
    (newowner1 = "0x0" →
      (sendtx_tx normalize_address blknum1 txindex1 oindex1 blknum2 txindex2
        oindex2 cur12 newowner1 newowner2 amount1 amount2 fee key1
        key2).newowner1 = NULL_ADDRESS) ∧
    (newowner2 = "0x0" →
      (sendtx_tx normalize_address blknum1 txindex1 oindex1 blknum2 txindex2
        oindex2 cur12 newowner1 newowner2 amount1 amount2 fee key1
        key2).newowner2 = NULL_ADDRESS) := by
  refine ⟨rfl, ?_, ?_, ?_⟩ <;>
    intro h <;> simp [sendtx_tx, resolveAddr, h]

/-- C7 witness: the shorthand theorem instantiated with all three address
arguments given as "0x0". -/
theorem sendtx_null_address_shorthand_witness :
    (sendtx_tx (fun _ => [1]) 1 2 0 3 4 0 "0x0" "0x0" "0x0" 5 6 0 (some 3)
      none).cur12 = NULL_ADDRESS ∧
    (sendtx_tx (fun _ => [1]) 1 2 0 3 4 0 "0x0" "0x0" "0x0" 5 6 0 (some 3)
      none).newowner1 = NULL_ADDRESS ∧
    (sendtx_tx (fun _ => [1]) 1 2 0 3 4 0 "0x0" "0x0" "0x0" 5 6 0 (some 3)
      none).newowner2 = NULL_ADDRESS := by
  have h := sendtx_null_address_shorthand (fun _ => [1]) 1 2 0 3 4 0
    "0x0" "0x0" "0x0" 5 6 0 (some 3) none
  exact ⟨h.2.1 rfl, h.2.2.1 rfl, h.2.2.2 rfl⟩

/-- errors an RPC client call can raise: the `ChildChainServiceError`
raised by the client library, or any other exception. -/
inductive CallErr : Type
  | childChainServiceError : String → CallErr
  | other : String → CallErr
deriving DecidableEq, Repr

/-- the `client_call` wrapper (cli.py lines 22-30): run the call, print the
success message when it is non-empty (Python truthiness of the string) and
return the output; a raised `ChildChainServiceError` is caught and turned
into two printed lines and an omitted (`none`) result; any other exception
propagates.  The value pairs the printed lines with the call's result; a
propagated exception is the `Except.error` case. -/
def client_call (A : Type) (fn : Except CallErr A)
    (successmessage : String) : Except CallErr (List String × Option A) :=
  match fn with
  | Except.ok output =>
      Except.ok
        ((if successmessage = "" then [] else [successmessage]), some output)
  | Except.error (CallErr.childChainServiceError err) =>
      Except.ok
        (["Error: " ++ err,
          "additional details can be found from the child chain's server output"],
         none)
  | Except.error e => Except.error e

/-- C8: every `ChildChainServiceError` raised by the underlying service
call is caught by `client_call` and presented as printed messages with an
omitted result — it is returned as a recoverable value and never
propagates, so no CLI command aborts with an unhandled child-chain
service error (cli.py lines 22-30). -/
theorem client_call_service_error_recovered (A : Type)
    (err successmessage : String) :
    client_call A (Except.error (CallErr.childChainServiceError err))
      successmessage =
      Except.ok
        (["Error: " ++ err,
          "additional details can be found from the child chain's server output"],
         (none : Option A)) ∧
    ∀ e, client_call A (Except.error (CallErr.childChainServiceError err))
      successmessage ≠ Except.error e :=
  ⟨rfl, fun e he => by simp [client_call] at he⟩

/-- a UTXO as returned by `client.get_utxos`: the tuple
`(blknum, txindex, oindex, amount)` — the amount is element index 3
(cli.py lines 101-105). -/
structure Utxo : Type where
  blknum : Nat
  txindex : Nat
  oindex : Nat
  amount : Nat
deriving DecidableEq, Repr

/-- Modelled from the spec: the output-slot variants of the extended
transaction format — a null slot (the literal 0 in the constructor calls),
a plain transfer, or an order-creating output (spec 3 and 9, the
polymorphic output). -/
inductive UTXOType : Type
  | null
  | transfer
  | make_order
deriving DecidableEq, Repr

/-- Modelled from the spec: the transaction kinds of the extended format;
`make_order` is the kind the `make_order` command constructs. -/
inductive TxnType : Type
  | transfer
  | make_order
deriving DecidableEq, Repr

/-- an output slot of the extended transaction format, fields in the
argument order of the `Transaction` constructor calls
`(utxotype, newowner, amount, tokenprice, currency)`
(cli.py lines 108-122). -/
structure TxOutput : Type where
  utxotype : UTXOType
  newowner : List Nat
  amount : Nat
  tokenprice : Nat
  cur : List Nat
deriving DecidableEq, Repr

/-- the all-null output slot `0, NULL_ADDRESS, 0, 0, NULL_ADDRESS`. -/
def nullOutput : TxOutput := ⟨UTXOType.null, NULL_ADDRESS, 0, 0, NULL_ADDRESS⟩

/-- Modelled from the spec: the extended (order-matching) transaction
record as constructed by `make_order` — transaction kind, two input UTXO
references, four output slots, the fee (not passed by `make_order`, so the
constructor default 0; spec 3 makes the fee an implicit operator output),
and two signature slots (empty until signed). -/
structure OrderTx : Type where
  txntype : TxnType
  blknum1 : Nat
  txindex1 : Nat
  oindex1 : Nat
  blknum2 : Nat
  txindex2 : Nat
  oindex2 : Nat
  out1 : TxOutput
  out2 : TxOutput
  out3 : TxOutput
  out4 : TxOutput
  fee : Nat
  sig1 : List SigPiece
  sig2 : List SigPiece
deriving DecidableEq, Repr

/-- the transaction `make_order` builds for a chosen UTXO
(cli.py lines 105-122): an order-creating first output for the requested
amount and token price, a change output to the same owner and currency
exactly when `utxo.amount - amount` is non-zero (Python truthiness of
`change_amount`), the second input left null `(0,0,0)`, and the remaining
slots null. -/
def make_order_tx (address currency : List Nat) (amount tokenprice : Nat)
    (u : Utxo) : OrderTx :=
  if u.amount - amount ≠ 0 then
    ⟨TxnType.make_order, u.blknum, u.txindex, u.oindex, 0, 0, 0,
      ⟨UTXOType.make_order, address, amount, tokenprice, currency⟩,
      ⟨UTXOType.transfer, address, u.amount - amount, 0, currency⟩,
      nullOutput, nullOutput, 0, [], []⟩
  else
    ⟨TxnType.make_order, u.blknum, u.txindex, u.oindex, 0, 0, 0,
      ⟨UTXOType.make_order, address, amount, tokenprice, currency⟩,
      nullOutput, nullOutput, nullOutput, 0, [], []⟩

/-- Modelled from the spec: `tx.sign1(key)` stores the signature made with
`key` in slot 1 and touches nothing else (spec 4.1 `sign`). -/
def sign1 (key : Nat) (tx : OrderTx) : OrderTx :=
  { tx with sig1 := [SigPiece.spendSig key] }

/-- the UTXO-selection loop of `make_order` (cli.py lines 97-127): scan the
returned UTXO list in order; at the first UTXO whose amount (element
index 3) is at least the requested amount, build the order transaction,
sign slot 1, submit it and break; when no UTXO suffices, fall through
without constructing or submitting anything and without reporting an
error.  The value is the submitted transaction, `none` when nothing was
submitted. -/
def make_order_submitted (address currency : List Nat)
    (amount tokenprice key : Nat) : List Utxo → Option OrderTx
  | [] => none
  | u :: rest =>
      if amount ≤ u.amount then
        some (sign1 key (make_order_tx address currency amount tokenprice u))
      else
        make_order_submitted address currency amount tokenprice key rest

theorem make_order_submitted_eq (address currency : List Nat)
    (amount tokenprice key : Nat) (utxos : List Utxo) :
    make_order_submitted address currency amount tokenprice key utxos =
      (utxos.find? (fun u => decide (amount ≤ u.amount))).map
        (fun u =>
          sign1 key (make_order_tx address currency amount tokenprice u)) := by
  induction utxos with
  | nil => rfl
  | cons u rest ih =>
      by_cases hc : amount ≤ u.amount
      · rw [List.find?_cons_of_pos _ (by simpa using hc)]
        simp [make_order_submitted, hc]
      · rw [List.find?_cons_of_neg _ (by simpa using hc)]
        simp [make_order_submitted, hc, ih]

/-- C9: `make_order` submits at most one transaction — exactly the one
built from the first UTXO in list order whose amount (element index 3) is
at least the requested amount — and when no UTXO suffices it submits
nothing and completes without reporting an error
(cli.py lines 97-127). -/
theorem make_order_first_sufficient (address currency : List Nat)
    (amount tokenprice key : Nat) (utxos : List Utxo) :
    make_order_submitted address currency amount tokenprice key utxos =
      (utxos.find? (fun u => decide (amount ≤ u.amount))).map
        (fun u =>
          sign1 key (make_order_tx address currency amount tokenprice u)) ∧
    ((∀ u ∈ utxos, u.amount < amount) →
      make_order_submitted address currency amount tokenprice key utxos
        = none) := by
  refine ⟨make_order_submitted_eq address currency amount tokenprice key
    utxos, ?_⟩
  intro hall
  rw [make_order_submitted_eq]
  have hfind : utxos.find? (fun u => decide (amount ≤ u.amount)) = none := by
    rw [List.find?_eq_none]
    intro u hu
    simpa using Nat.not_le.mpr (hall u hu)
  rw [hfind]
  rfl

/-- C9 witness: the selection theorem instantiated on a one-element UTXO
list whose amount 2 is below the requested amount 4, so nothing is
submitted. -/
theorem make_order_first_sufficient_witness :
    make_order_submitted [8] [9] 4 6 5 [⟨0, 0, 0, 2⟩] =
      (([⟨0, 0, 0, 2⟩] : List Utxo).find?
        (fun u => decide (4 ≤ u.amount))).map
        (fun u => sign1 5 (make_order_tx [8] [9] 4 6 u)) ∧
    make_order_submitted [8] [9] 4 6 5 [⟨0, 0, 0, 2⟩] = none := by
  have h := make_order_first_sufficient [8] [9] 4 6 5 [⟨0, 0, 0, 2⟩]
  exact ⟨h.1, h.2 (by decide)⟩

/-- C10: every transaction `make_order` submits spends exactly one UTXO
(the second input is the null reference), has fee 0, is signed only in
slot 1, carries the requested amount on the order output, and conserves
value exactly: the output amounts sum to the spent UTXO's amount, with a
change output to the same owner and currency when the difference is
non-zero and a null change slot when it is zero
(cli.py lines 105-124). -/
theorem make_order_tx_shape (address currency : List Nat)
    (amount tokenprice key : Nat) (utxos : List Utxo) (tx : OrderTx)
    (h : make_order_submitted address currency amount tokenprice key utxos
      = some tx) :
    ∃ u, utxos.find? (fun v => decide (amount ≤ v.amount)) = some u ∧
      amount ≤ u.amount ∧
      tx.blknum1 = u.blknum ∧ tx.txindex1 = u.txindex ∧
      tx.oindex1 = u.oindex ∧
      tx.blknum2 = 0 ∧ tx.txindex2 = 0 ∧ tx.oindex2 = 0 ∧
      tx.fee = 0 ∧
      tx.sig1 = [SigPiece.spendSig key] ∧ tx.sig2 = [] ∧
      tx.out1 = ⟨UTXOType.make_order, address, amount, tokenprice,
        currency⟩ ∧
      tx.out1.amount + tx.out2.amount = u.amount ∧
      tx.out3 = nullOutput ∧ tx.out4 = nullOutput ∧
      (amount < u.amount →
        tx.out2 =
          ⟨UTXOType.transfer, address, u.amount - amount, 0, currency⟩) ∧
      (u.amount = amount → tx.out2 = nullOutput) := by
  rw [make_order_submitted_eq] at h
  cases hf : utxos.find? (fun v => decide (amount ≤ v.amount)) with
  | none => rw [hf] at h; cases h
  | some u =>
      rw [hf] at h
      have hp : amount ≤ u.amount := by
        have hpred := List.find?_some hf
        simpa using hpred
      rw [Option.map_some'] at h
      injection h with h2
      subst h2
      by_cases hch : u.amount - amount ≠ 0
      · refine ⟨u, rfl, hp, ?_⟩
        unfold make_order_tx
        rw [if_pos hch]
        refine ⟨rfl, rfl, rfl, rfl, rfl, rfl, rfl, rfl, rfl, rfl, ?_, rfl,
          rfl, ?_, ?_⟩
        · show amount + (u.amount - amount) = u.amount
          omega
        · intro _
          rfl
        · intro he
          exact absurd (show u.amount - amount = 0 by omega) hch
      · refine ⟨u, rfl, hp, ?_⟩
        unfold make_order_tx
        rw [if_neg hch]
        refine ⟨rfl, rfl, rfl, rfl, rfl, rfl, rfl, rfl, rfl, rfl, ?_, rfl,
          rfl, ?_, ?_⟩
        · show amount + nullOutput.amount = u.amount
          have h0 : u.amount - amount = 0 := by omega
          show amount + 0 = u.amount
          omega
        · intro hlt
          exfalso
          omega
        · intro _
          rfl

/-- a concrete UTXO used by the make_order shape witness. -/
def wUtxo : Utxo := ⟨1, 2, 3, 10⟩

/-- the transaction `make_order` submits for `wUtxo` when 4 tokens are
requested at token price 6 and signed with key 5 (change 6 to the owner). -/
def wOrderTx : OrderTx :=
  ⟨TxnType.make_order, 1, 2, 3, 0, 0, 0,
    ⟨UTXOType.make_order, [8], 4, 6, [9]⟩,
    ⟨UTXOType.transfer, [8], 6, 0, [9]⟩,
    nullOutput, nullOutput, 0, [SigPiece.spendSig 5], []⟩

/-- C10 witness: the shape theorem instantiated on a one-element UTXO list
with amount 10 and a requested amount of 4. -/
theorem make_order_tx_shape_witness :
    ∃ u, ([wUtxo] : List Utxo).find? (fun v => decide (4 ≤ v.amount))
        = some u ∧
      4 ≤ u.amount ∧
      wOrderTx.blknum1 = u.blknum ∧ wOrderTx.txindex1 = u.txindex ∧
      wOrderTx.oindex1 = u.oindex ∧
      wOrderTx.blknum2 = 0 ∧ wOrderTx.txindex2 = 0 ∧
      wOrderTx.oindex2 = 0 ∧
      wOrderTx.fee = 0 ∧
      wOrderTx.sig1 = [SigPiece.spendSig 5] ∧ wOrderTx.sig2 = [] ∧
      wOrderTx.out1 = ⟨UTXOType.make_order, [8], 4, 6, [9]⟩ ∧
      wOrderTx.out1.amount + wOrderTx.out2.amount = u.amount ∧
      wOrderTx.out3 = nullOutput ∧ wOrderTx.out4 = nullOutput ∧
      (4 < u.amount →
        wOrderTx.out2 = ⟨UTXOType.transfer, [8], u.amount - 4, 0, [9]⟩) ∧
      (u.amount = 4 → wOrderTx.out2 = nullOutput) :=
  make_order_tx_shape [8] [9] 4 6 5 [wUtxo] wOrderTx (by decide)
